import Mathlib

/-!
Verification of the `cp_sampler` repository against its specification.

The Python sources are shallowly embedded below:
* `get_top` (src/cp_sampler.py, lines 190-218): the top-N selector;
* `round_sf` (src/cp_sampler.py, lines 110-122): significant-figure rounding;
* `dict_to_csv` (src/cp_sampler.py, lines 124-149): dictionary-to-CSV writer;
* `csv_to_dict` (src/summary/sum_phi.py, lines 11-55): CSV reader;
* the sweep driver (src/cp_sampler.py, lines 236-283) and the trial-outcome
  classification (lines 82-101 and 253-266), including an interleaving model
  of the one-worker-thread-per-trial timeout design.

Python floats are modelled as rationals (`ℚ`): the comparisons, insertions and
exact decimal roundings performed by the code are faithfully represented in
exact arithmetic.
-/

namespace CpSampler

/-! ### Top-N selector: `get_top` (src/cp_sampler.py 190-218)

The Python code keeps two parallel lists `top_value_list` and `top_index_list`
that are always pushed to, inserted into and popped from at the same positions;
they are modelled as a single list of (value, index) pairs.
-/

/-- The inner `for j in range(len(top_value_list))` loop of `get_top`:
insert `(v, i)` in front of the first element whose value is strictly
less than `v` (`if value > top_value_list[j]: insert(j, ...); break`);
if no such element exists, nothing is inserted. -/
def insertPair (v : ℚ) (i : ℕ) : List (ℚ × ℕ) → List (ℚ × ℕ)
  | [] => []
  | p :: rest => if v > p.1 then (v, i) :: p :: rest else p :: insertPair v i rest

/-- One iteration of the outer `for i in range(len(value_list))` loop of
`get_top`, acting on the accumulated pair list. -/
def topStep (num_values : ℕ) (acc : List (ℚ × ℕ)) (i : ℕ) (v : ℚ) : List (ℚ × ℕ) :=
  if acc = [] then [(v, i)]
  else if v < (acc.getLastD (0, 0)).1 ∧ acc.length = num_values then acc
  else
    let acc2 := insertPair v i acc
    if num_values < acc2.length then acc2.dropLast else acc2

/-- `get_top(value_list, num_values)` from src/cp_sampler.py lines 190-218. -/
def get_top (value_list : List ℚ) (num_values : ℕ) : List ℚ × List ℕ :=
  let final := value_list.enum.foldl (fun acc p => topStep num_values acc p.1 p.2) []
  (final.map Prod.fst, final.map Prod.snd)

/-- Every pair of the inserted list is either the new pair or one of the old ones. -/
lemma mem_insertPair {v : ℚ} {i : ℕ} {L : List (ℚ × ℕ)} {p : ℚ × ℕ}
    (h : p ∈ insertPair v i L) : p = (v, i) ∨ p ∈ L := by
  induction L with
  | nil => exact absurd h (by simp [insertPair])
  | cons q rest ih =>
    simp only [insertPair] at h
    split at h
    · rcases List.mem_cons.1 h with h1 | h1
      · exact Or.inl h1
      · exact Or.inr h1
    · rcases List.mem_cons.1 h with h1 | h1
      · exact Or.inr (h1 ▸ List.mem_cons_self q rest)
      · rcases ih h1 with h2 | h2
        · exact Or.inl h2
        · exact Or.inr (List.mem_cons_of_mem q h2)

/-- Inserting in front of the first strictly smaller element keeps the pair list
sorted by non-increasing value. -/
lemma pairwise_insertPair {v : ℚ} {i : ℕ} {L : List (ℚ × ℕ)}
    (h : L.Pairwise (fun p q => q.1 ≤ p.1)) :
    (insertPair v i L).Pairwise (fun p q => q.1 ≤ p.1) := by
  induction L with
  | nil => simp [insertPair]
  | cons q rest ih =>
    rcases List.pairwise_cons.1 h with ⟨hq, hrest⟩
    simp only [insertPair]
    split
    · rename_i hv
      refine List.pairwise_cons.2 ⟨?_, h⟩
      intro r hr
      rcases List.mem_cons.1 hr with h1 | h1
      · exact h1 ▸ le_of_lt hv
      · exact (hq r h1).trans (le_of_lt hv)
    · rename_i hv
      refine List.pairwise_cons.2 ⟨?_, ih hrest⟩
      intro r hr
      rcases mem_insertPair hr with h1 | h1
      · exact h1 ▸ not_lt.1 hv
      · exact hq r h1

/-- Invariant maintained by the `get_top` loop: the accumulated (value, index)
pairs are sorted by non-increasing value, and every kept value is the input
element at its kept index. -/
def TopInv (values : List ℚ) (L : List (ℚ × ℕ)) : Prop :=
  L.Pairwise (fun p q => q.1 ≤ p.1) ∧ ∀ p ∈ L, values[p.2]? = some p.1

lemma topStep_inv {values : List ℚ} {n : ℕ} {L : List (ℚ × ℕ)} {i : ℕ} {v : ℚ}
    (hL : TopInv values L) (hv : values[i]? = some v) :
    TopInv values (topStep n L i v) := by
  obtain ⟨hsort, hmem⟩ := hL
  unfold topStep
  split
  · exact ⟨by simp, by intro p hp; rcases List.mem_singleton.1 hp with rfl; exact hv⟩
  · split
    · exact ⟨hsort, hmem⟩
    · have hins : TopInv values (insertPair v i L) := by
        refine ⟨pairwise_insertPair hsort, ?_⟩
        intro p hp
        rcases mem_insertPair hp with rfl | hp'
        · exact hv
        · exact hmem p hp'
      show TopInv values
        (if n < (insertPair v i L).length then (insertPair v i L).dropLast
         else insertPair v i L)
      split
      · exact ⟨hins.1.sublist (List.dropLast_sublist _),
          fun p hp => hins.2 p ((List.dropLast_sublist _).subset hp)⟩
      · exact hins

lemma foldl_topStep_inv (values : List ℚ) (n : ℕ) (ps : List (ℕ × ℚ)) :
    ∀ L : List (ℚ × ℕ), TopInv values L → (∀ q ∈ ps, values[q.1]? = some q.2) →
      TopInv values (ps.foldl (fun acc p => topStep n acc p.1 p.2) L) := by
  induction ps with
  | nil => intro L hL _; exact hL
  | cons p ps ih =>
    intro L hL hps
    exact ih _ (topStep_inv hL (hps p (List.mem_cons_self p ps)))
      (fun q hq => hps q (List.mem_cons_of_mem p hq))

lemma forall₂_map_fst_snd {P : ℚ → ℕ → Prop} {L : List (ℚ × ℕ)}
    (h : ∀ p ∈ L, P p.1 p.2) :
    List.Forall₂ P (L.map Prod.fst) (L.map Prod.snd) := by
  induction L with
  | nil => exact List.Forall₂.nil
  | cons p rest ih =>
    exact List.Forall₂.cons (h p (List.mem_cons_self p rest))
      (ih fun q hq => h q (List.mem_cons_of_mem p hq))

/-- C3: for every input list and every n, the `top_values` returned by `get_top`
are in descending (or equal) order and, position by position, every returned
value is the input element at the corresponding returned index
(`values[top_indices[i]] == top_values[i]`, stated via `Forall₂`, which also
forces the two returned lists to have equal length). -/
theorem c3_get_top_sorted_and_indexed (values : List ℚ) (n : ℕ) :
    List.Sorted (fun a b => b ≤ a) (get_top values n).1 ∧
      List.Forall₂ (fun v i => values[i]? = some v)
        (get_top values n).1 (get_top values n).2 := by
  have hinv : TopInv values
      (values.enum.foldl (fun acc p => topStep n acc p.1 p.2) []) := by
    refine foldl_topStep_inv values n values.enum [] ⟨List.Pairwise.nil, by simp⟩ ?_
    intro q hq
    exact List.mem_enum_iff_getElem?.1 hq
  constructor
  · exact (List.pairwise_map).2 hinv.1
  · exact forall₂_map_fst_snd hinv.2

/-- C1: evaluation of `get_top` at the failing inputs. For `values = [5, 3]`
and `n = 2` the code returns a single value although `min(n, len(values)) = 2`:
any value not exceeding the current minimum is dropped even when fewer than `n`
values have been kept. For `values = [5]` and `n = 0` the code returns one value
instead of an empty result, because the first element is appended
unconditionally. -/
theorem c1_get_top_length_at_failing_inputs :
    get_top [5, 3] 2 = ([5], [0]) ∧ get_top [5] 0 = ([5], [0]) ∧
      (get_top [5, 3] 2).1.length = 1 ∧ (get_top [5] 0).1.length = 1 := by
  refine ⟨by decide, by decide, by decide, by decide⟩

/-- C2: evaluation of `get_top` at the claimed tie example. The code returns
`([5], [0])`, not `([5, 5], [0, 1])`: the second 5 is not strictly greater than
any kept value, so the insertion loop never fires and the tie is dropped even
though only one of the two requested values has been kept. -/
theorem c2_get_top_tie_at_failing_input :
    get_top [5, 5, 3] 2 = ([5], [0]) := by decide

/-! ### Significant-figure rounding: `round_sf` (src/cp_sampler.py 110-122)

The Python code formats `value` with `"{:.{sf}g}"` and parses the text back.
The `g` format rounds to `sf` significant decimal digits with ties to even;
this is modelled in exact rational arithmetic: pick the decimal exponent `e`
of `|value|` (the unique `e` with `10^e ≤ |value| < 10^(e+1)`), scale so that
`sf` digits sit before the point, round half to even, and scale back. -/

/-- Decimal exponent used by the `g` format: for `q > 0` the unique `e` with
`10^e ≤ q < 10^(e+1)`. -/
def decExp (q : ℚ) : ℤ := Int.log 10 q

/-- Round to the nearest integer, ties to even — the rounding used by the
`g` string format. -/
def roundHalfEven (q : ℚ) : ℤ :=
  if q - ⌊q⌋ < 1 / 2 then ⌊q⌋
  else if 1 / 2 < q - ⌊q⌋ then ⌊q⌋ + 1
  else if ⌊q⌋ % 2 = 0 then ⌊q⌋ else ⌊q⌋ + 1

/-- `round_sf(value, sf)` from src/cp_sampler.py lines 110-122 (identical copy
in src/summary/sum_phi.py lines 84-96): round to `sf` significant decimal
digits, the exact-arithmetic meaning of formatting with `"{:.{sf}g}"` and
parsing the text back with `float`. -/
def round_sf (value : ℚ) (sf : ℕ) : ℚ :=
  if value = 0 then 0
  else
    let e : ℤ := decExp |value|
    let s : ℤ := e - sf + 1
    (roundHalfEven (value / (10 : ℚ) ^ s) : ℚ) * (10 : ℚ) ^ s

/-- The decimal exponent is characterised by its bracketing property. -/
lemma decExp_eq {q : ℚ} {e : ℤ} (hq : 0 < q) (h1 : ((10 : ℕ) : ℚ) ^ e ≤ q)
    (h2 : q < ((10 : ℕ) : ℚ) ^ (e + 1)) : decExp q = e := by
  have hb : 1 < (10 : ℕ) := by norm_num
  have ha := (Int.zpow_le_iff_le_log hb hq).1 h1
  have hc := (Int.lt_zpow_iff_log_lt hb hq).1 h2
  unfold decExp
  omega

lemma round_sf_eval {v : ℚ} {sf : ℕ} {e s : ℤ} (hv : v ≠ 0)
    (he : decExp |v| = e) (hs : e - sf + 1 = s) :
    round_sf v sf = (roundHalfEven (v / (10 : ℚ) ^ s) : ℚ) * (10 : ℚ) ^ s := by
  simp only [round_sf, if_neg hv, he, hs]

lemma roundHalfEven_low {q : ℚ} {f : ℤ} (hf : ⌊q⌋ = f) (h : q - f < 1 / 2) :
    roundHalfEven q = f := by
  simp only [roundHalfEven, hf, if_pos h]

lemma roundHalfEven_high {q : ℚ} {f : ℤ} (hf : ⌊q⌋ = f) (h : 1 / 2 < q - f) :
    roundHalfEven q = f + 1 := by
  simp only [roundHalfEven, hf, if_neg (asymm h), if_pos h]

/-- C4: `round_sf` realises g-style significant-digit rounding on the spec's
two examples: `round_sf(123456, 3) == 123000.0` and
`round_sf(0.0004567, 2) == 0.00046`. -/
theorem c4_round_sf_examples :
    round_sf 123456 3 = 123000 ∧ round_sf (4567 / 10000000) 2 = 46 / 100000 := by
  constructor
  · have he : decExp |(123456 : ℚ)| = 5 := by
      rw [abs_of_pos (by norm_num)]
      exact decExp_eq (by norm_num) (by norm_num) (by norm_num)
    rw [round_sf_eval (s := 3) (by norm_num) he (by norm_num)]
    have harg : (123456 : ℚ) / (10 : ℚ) ^ (3 : ℤ) = 123456 / 1000 := by norm_num
    rw [harg, roundHalfEven_low (f := 123) (by rw [Int.floor_eq_iff]; norm_num)
      (by norm_num)]
    norm_num
  · have he : decExp |(4567 / 10000000 : ℚ)| = -4 := by
      rw [abs_of_pos (by norm_num)]
      exact decExp_eq (by norm_num) (by norm_num) (by norm_num)
    rw [round_sf_eval (s := -5) (by norm_num) he (by norm_num)]
    have harg : (4567 / 10000000 : ℚ) / (10 : ℚ) ^ (-5 : ℤ) = 4567 / 100 := by
      norm_num
    rw [harg, roundHalfEven_high (f := 45) (by rw [Int.floor_eq_iff]; norm_num)
      (by norm_num)]
    norm_num

/-! ### CSV codec: `dict_to_csv` (src/cp_sampler.py 124-149, duplicated in
src/summary/sum_phi.py 57-82) and `csv_to_dict` (src/summary/sum_phi.py 11-55)

A Python dictionary is modelled as an association list keyed by strings, which
preserves Python's insertion-ordered iteration. A dictionary value is either a
scalar or a list; `dict_to_csv` first mutates its argument in place, wrapping
every non-list value into a one-element list, so the model returns both the
final state of the dictionary and the written lines. Files are modelled as the
list of their lines, without the trailing newline each `write` appends. -/

/-- A value of the dictionary passed to `dict_to_csv`: a bare scalar or a list
of scalars. -/
inductive DVal (α : Type) where
  | scalar (a : α)
  | vlist (l : List α)
deriving DecidableEq

/-- The in-place coercion performed by the first loop of `dict_to_csv`:
`if not isinstance(data_dict[header], list): data_dict[header] = [...]`. -/
def asListVal {α : Type} : DVal α → DVal α
  | .scalar a => .vlist [a]
  | .vlist l => .vlist l

/-- Dictionary lookup `d[k]` on the association-list model. -/
def getVal {β : Type} (k : String) : List (String × β) → Option β
  | [] => none
  | p :: rest => if p.1 = k then some p.2 else getVal k rest

/-- Dictionary assignment `d[k] = v`: replace the first binding of `k`, or
append a new binding at the end (Python dicts keep insertion order). -/
def setVal {β : Type} (k : String) (v : β) : List (String × β) → List (String × β)
  | [] => [(k, v)]
  | p :: rest => if p.1 = k then (k, v) :: rest else p :: setVal k v rest

/-- One step of `dict_to_csv`'s first loop, at key `h`. -/
def listifyStep {α : Type} (d : List (String × DVal α)) (h : String) :
    List (String × DVal α) :=
  match getVal h d with
  | some (.scalar a) => setVal h (.vlist [a]) d
  | _ => d

/-- The list behind `data_dict[header]` when the writing loop reads it; after
the listify loop every value is a `vlist`, so the `scalar` case is unreachable
there (Python would raise `TypeError` on `len` of a scalar). -/
def cells {α : Type} (d : List (String × DVal α)) (h : String) : List α :=
  match getVal h d with
  | some (.vlist l) => l
  | some (.scalar a) => [a]
  | none => []

/-- Character-level splitter behind Python's `str.split(sep)` for a one-char
separator: `"".split(",") == [""]` and `"2,".split(",") == ["2", ""]`. -/
def splitCharAux (sep : Char) : List Char → List Char → List (List Char)
  | [], cur => [cur.reverse]
  | c :: rest, cur =>
    if c = sep then cur.reverse :: splitCharAux sep rest []
    else splitCharAux sep rest (c :: cur)

/-- Python `s.split(",")`. -/
def splitComma (s : String) : List String :=
  (splitCharAux ',' s.toList []).map fun l => String.mk l

/-- Decimal digits of a natural number, most significant first; the first
argument is structural fuel, always sufficient at the call site. -/
def natCharsAux : ℕ → ℕ → List Char
  | 0, _ => []
  | f + 1, n =>
    if n < 10 then [Char.ofNat (48 + n)]
    else natCharsAux f (n / 10) ++ [Char.ofNat (48 + n % 10)]

/-- Python `str` on a non-negative integer, the stringification `dict_to_csv`
applies to integer cell values. -/
def natStr (n : ℕ) : String := String.mk (natCharsAux (n + 1) n)

/-- `dict_to_csv(data_dict, csv_path)` from src/cp_sampler.py lines 124-149.
Returns the final state of `data_dict` (the function mutates it in place) and
the lines written to the file; `f` is Python's `str` on cell values. The
Python `max([...])` raises on an empty dictionary; here it is modelled as 0
and the theorems only assume nonempty dictionaries. -/
def dict_to_csv {α : Type} (f : α → String) (d : List (String × DVal α)) :
    List (String × DVal α) × List String :=
  let headers := d.map Prod.fst
  let d2 := headers.foldl listifyStep d
  let headerLine := String.intercalate "," headers
  let maxLen := (headers.map fun h => (cells d2 h).length).foldr max 0
  let rows := (List.range maxLen).map fun i =>
    String.intercalate "," (headers.map fun h =>
      match (cells d2 h)[i]? with
      | some a => f a
      | none => "")
  (d2, headerLine :: rows)

/-- A cell value collected by `csv_to_dict`: the field coerced to a float when
possible, otherwise the raw string. -/
inductive Field where
  | num (q : ℚ)
  | str (s : String)
deriving DecidableEq

/-- A value of the dictionary returned by `csv_to_dict`: a column unwrapped to
a bare scalar when it collected exactly one value, otherwise the list of
collected values. -/
inductive RVal where
  | scalar (v : Field)
  | vlist (l : List Field)
deriving DecidableEq

/-- Value of a list of decimal digit characters. -/
def digitsToNat (cs : List Char) : ℕ :=
  cs.foldl (fun a c => 10 * a + (c.toNat - 48)) 0

/-- Models Python `float(value)` on plain decimal literals: an optional sign,
then digits with at most one decimal point. Other accepted spellings of Python
floats (exponents, infinities, whitespace) are outside the inputs exercised
here and are rejected. -/
def parseFloat (s : String) : Option ℚ :=
  let go : List Char → Option ℚ := fun body =>
    match splitCharAux '.' body [] with
    | [a] =>
      if !a.isEmpty && a.all Char.isDigit then some (digitsToNat a : ℚ) else none
    | [a, b] =>
      if !(a ++ b).isEmpty && (a ++ b).all Char.isDigit then
        some ((digitsToNat a : ℚ) + (digitsToNat b : ℚ) / ((10 ^ b.length : ℕ) : ℚ))
      else none
    | _ => none
  match s.toList with
  | '-' :: rest => (go rest).map fun q => -q
  | '+' :: rest => go rest
  | cs => go cs

/-- The `try: value = float(value) except: pass` coercion of `csv_to_dict`. -/
def parseField (s : String) : Field :=
  match parseFloat s with
  | some q => .num q
  | none => .str s

/-- `csv_to_dict(csv_path)` from src/summary/sum_phi.py lines 11-55, on the
lines of the file. `none` models the unhandled Python exceptions: an empty
file (`csv_lines[0]` raises) and a data row with fewer fields than the header
(`csv_line_list[i]` raises). Empty fields are skipped, every other field is
float-coerced when possible, and a column that collected exactly one value is
unwrapped to that bare value. -/
def csv_to_dict (lines : List String) : Option (List (String × RVal)) :=
  match lines with
  | [] => none
  | headerLine :: rest =>
    let headers := splitComma headerLine
    let init : List (String × List Field) :=
      headers.foldl (fun acc h => setVal h [] acc) []
    let step : Option (List (String × List Field)) → String →
        Option (List (String × List Field)) := fun acc? line =>
      acc?.bind fun acc =>
        let fields := splitComma line
        if headers.length ≤ fields.length then
          some ((List.range headers.length).foldl (fun a i =>
            let value := fields.getD i ""
            if value = "" then a
            else
              let h := headers.getD i ""
              setVal h ((getVal h a).getD [] ++ [parseField value]) a) acc)
        else none
    (rest.foldl step (some init)).map fun cols =>
      cols.map fun p =>
        (p.1, if p.2.length = 1 then RVal.scalar (p.2.getD 0 (.str ""))
              else RVal.vlist p.2)

/-- The claim's running example `{"a": [1, 2], "b": [3]}`. -/
def exDict : List (String × DVal ℕ) := [("a", .vlist [1, 2]), ("b", .vlist [3])]

example : (dict_to_csv natStr exDict).2 = ["a,b", "1,3", "2,"] := by decide
example : csv_to_dict ["a,b", "1,3", "2,"] =
    some [("a", RVal.vlist [Field.num 1, Field.num 2]),
          ("b", RVal.scalar (Field.num 3))] := by decide

lemma getVal_setVal_self {β : Type} (k : String) (v : β) (d : List (String × β)) :
    getVal k (setVal k v d) = some v := by
  induction d with
  | nil => simp [setVal, getVal]
  | cons p rest ih =>
    simp only [setVal]
    split
    · simp [getVal]
    · rename_i hne
      simpa only [getVal, if_neg hne] using ih

lemma getVal_setVal_ne {β : Type} {k k2 : String} (h : k2 ≠ k) (v : β)
    (d : List (String × β)) : getVal k2 (setVal k v d) = getVal k2 d := by
  induction d with
  | nil => simp [setVal, getVal, Ne.symm h]
  | cons p rest ih =>
    simp only [setVal]
    split
    · rename_i heq
      simp only [getVal, if_neg (Ne.symm h), if_neg (show ¬p.1 = k2 from heq ▸ Ne.symm h)]
    · simp only [getVal]
      split
      · rfl
      · exact ih

lemma getVal_eq_none_of_not_mem {β : Type} {k : String} :
    ∀ {d : List (String × β)}, k ∉ d.map Prod.fst → getVal k d = none
  | [], _ => rfl
  | p :: rest, hk => by
    have h1 : ¬p.1 = k := fun he => hk (List.mem_map.2 ⟨p, List.mem_cons_self p rest, he⟩)
    have h2 : k ∉ rest.map Prod.fst := fun hm => hk (by
      rcases List.mem_map.1 hm with ⟨q, hq, he⟩
      exact List.mem_map.2 ⟨q, List.mem_cons_of_mem p hq, he⟩)
    simp only [getVal, if_neg h1]
    exact getVal_eq_none_of_not_mem h2

lemma getVal_listifyStep_self {α : Type} (d : List (String × DVal α)) (h : String) :
    getVal h (listifyStep d h) = (getVal h d).map asListVal := by
  unfold listifyStep
  cases hv : getVal h d with
  | none => simp [hv]
  | some v =>
    cases v with
    | scalar a => simp [getVal_setVal_self, asListVal]
    | vlist l => simp [hv, asListVal]

lemma getVal_listifyStep_ne {α : Type} {h h2 : String} (hne : h2 ≠ h)
    (d : List (String × DVal α)) : getVal h2 (listifyStep d h) = getVal h2 d := by
  unfold listifyStep
  cases getVal h d with
  | none => rfl
  | some v =>
    cases v with
    | scalar a => exact getVal_setVal_ne hne _ d
    | vlist l => rfl

lemma getVal_foldl_listify_notmem {α : Type} {h : String} (hs : List String) :
    ∀ d : List (String × DVal α), h ∉ hs →
      getVal h (hs.foldl listifyStep d) = getVal h d := by
  induction hs with
  | nil => intro d _; rfl
  | cons h2 hs ih =>
    intro d hmem
    rw [List.foldl_cons, ih _ (fun hh => hmem (List.mem_cons_of_mem h2 hh)),
      getVal_listifyStep_ne (fun he => hmem (by rw [he]; exact List.mem_cons_self h2 hs))]

lemma getVal_foldl_listify_mem {α : Type} {h : String} (hs : List String) :
    ∀ d : List (String × DVal α), hs.Nodup → h ∈ hs →
      getVal h (hs.foldl listifyStep d) = (getVal h d).map asListVal := by
  induction hs with
  | nil => intro d _ hmem; exact absurd hmem (List.not_mem_nil h)
  | cons h2 hs ih =>
    intro d hnd hmem
    rcases List.mem_cons.1 hmem with rfl | hmem2
    · rw [List.foldl_cons, getVal_foldl_listify_notmem hs _ (List.nodup_cons.1 hnd).1,
        getVal_listifyStep_self]
    · have hne : h ≠ h2 := fun he => (List.nodup_cons.1 hnd).1 (show h2 ∈ hs from he ▸ hmem2)
      rw [List.foldl_cons, ih _ (List.nodup_cons.1 hnd).2 hmem2,
        getVal_listifyStep_ne hne]

/-- The column of key `h` as claim C5 describes it: a scalar value counts as
the one-element column, a list value is the column itself. -/
def specColumn {α : Type} (d : List (String × DVal α)) (h : String) : List α :=
  match getVal h d with
  | some (.scalar a) => [a]
  | some (.vlist l) => l
  | none => []

/-- The output claim C5 describes: one header line of the comma-joined keys in
mapping order, then one line per index up to the longest column, each cell the
string of that column's i-th element or empty when the column is shorter. -/
def csvLinesSpec {α : Type} (f : α → String) (d : List (String × DVal α)) :
    List String :=
  let headers := d.map Prod.fst
  let maxLen := (headers.map fun h => (specColumn d h).length).foldr max 0
  String.intercalate "," headers ::
    (List.range maxLen).map fun i =>
      String.intercalate "," (headers.map fun h =>
        match (specColumn d h)[i]? with
        | some a => f a
        | none => "")

lemma cells_eq_specColumn {α : Type} {d d2 : List (String × DVal α)} {h : String}
    (he : getVal h d2 = (getVal h d).map asListVal) :
    cells d2 h = specColumn d h := by
  unfold cells specColumn
  rw [he]
  cases getVal h d with
  | none => rfl
  | some v => cases v <;> rfl

/-- Claim C5's restriction on the dictionary values: a scalar, or a non-empty
list. -/
def nonemptyVal {α : Type} : DVal α → Bool
  | .scalar _ => true
  | .vlist l => !l.isEmpty

/-- C5: for a nonempty mapping with distinct keys whose values are non-empty
lists or scalars, `dict_to_csv` writes one header line of the comma-joined keys
in mapping iteration order, followed by exactly max-column-length data lines,
where row `i` holds the string of each column's i-th element or an empty field
when that column is shorter than `i+1` (stated as equality with the spec-side
rendering `csvLinesSpec`). -/
theorem c5_dict_to_csv_lines {α : Type} (f : α → String)
    (d : List (String × DVal α)) (_hne : d ≠ []) (hnd : (d.map Prod.fst).Nodup)
    (_hvals : ∀ p ∈ d, nonemptyVal p.2 = true) :
    (dict_to_csv f d).2 = csvLinesSpec f d := by
  have hcol : ∀ h ∈ d.map Prod.fst,
      cells ((d.map Prod.fst).foldl listifyStep d) h = specColumn d h := fun h hh =>
    cells_eq_specColumn (getVal_foldl_listify_mem _ d hnd hh)
  simp only [dict_to_csv, csvLinesSpec]
  have hlen : (d.map Prod.fst).map
      (fun h => (cells ((d.map Prod.fst).foldl listifyStep d) h).length) =
      (d.map Prod.fst).map (fun h => (specColumn d h).length) :=
    List.map_congr_left fun h hh => by rw [hcol h hh]
  rw [hlen]
  congr 1
  refine List.map_congr_left fun i _ => ?_
  congr 1
  exact List.map_congr_left fun h hh => by rw [hcol h hh]

/-- C5 witness: the general theorem applied to the example mapping
`{"a": [1, 2], "b": [3]}` yields exactly the lines `a,b`, `1,3`, `2,`. -/
theorem c5_dict_to_csv_lines_witness :
    exDict ≠ [] ∧ (exDict.map Prod.fst).Nodup ∧
      (∀ p ∈ exDict, nonemptyVal p.2 = true) ∧
      (dict_to_csv natStr exDict).2 = ["a,b", "1,3", "2,"] := by
  refine ⟨by decide, by decide, by decide, ?_⟩
  rw [c5_dict_to_csv_lines natStr exDict (by decide) (by decide) (by decide)]
  decide

/-- C6: the write/read pair is not a round trip. Reading the text produced by
writing `{"a": [1, 2], "b": [3]}` yields `{"a": [1.0, 2.0], "b": 3.0}`: the
padding field written for the shorter column is dropped, the remaining fields
are coerced to numbers, and the singleton column `b` is unwrapped to a bare
scalar. A column that collected no values at all is returned as an empty
list. -/
theorem c6_csv_roundtrip_asymmetry :
    csv_to_dict ((dict_to_csv natStr exDict).2) =
      some [("a", RVal.vlist [Field.num 1, Field.num 2]),
            ("b", RVal.scalar (Field.num 3))] ∧
    csv_to_dict ["a,b", ",1", ",2"] =
      some [("a", RVal.vlist []), ("b", RVal.vlist [Field.num 1, Field.num 2])] := by
  refine ⟨by decide, by decide⟩

/-- C10: `dict_to_csv` mutates its input mapping in place: afterwards every key
that held a bare scalar holds the one-element list of that scalar, and every
key that held a list is unchanged (`asListVal` is the identity on lists). -/
theorem c10_dict_to_csv_mutates_input {α : Type} (f : α → String)
    (d : List (String × DVal α)) (hnd : (d.map Prod.fst).Nodup) (k : String) :
    getVal k (dict_to_csv f d).1 = (getVal k d).map asListVal := by
  simp only [dict_to_csv]
  by_cases hk : k ∈ d.map Prod.fst
  · exact getVal_foldl_listify_mem _ d hnd hk
  · rw [getVal_foldl_listify_notmem _ d hk, getVal_eq_none_of_not_mem hk]
    rfl

/-- The example mapping for the C10 witness: a scalar under `"a"`, a list
under `"b"`. -/
def exMut : List (String × DVal ℕ) := [("a", .scalar 5), ("b", .vlist [1, 2])]

/-- C10 witness: after writing, the scalar under `"a"` has become `[5]` and
the list under `"b"` is unchanged. -/
theorem c10_dict_to_csv_mutates_input_witness :
    (exMut.map Prod.fst).Nodup ∧
      getVal "a" (dict_to_csv natStr exMut).1 = some (DVal.vlist [5]) ∧
      getVal "b" (dict_to_csv natStr exMut).1 = some (DVal.vlist [1, 2]) := by
  refine ⟨by decide, ?_, ?_⟩
  · rw [c10_dict_to_csv_mutates_input natStr exMut (by decide) "a"]
    decide
  · rw [c10_dict_to_csv_mutates_input natStr exMut (by decide) "b"]
    decide

/-! ### Trial outcomes and the sweep driver (src/cp_sampler.py 82-101, 236-283)

The physics call (`drivers.uniaxial_test` and the model constructors) is an
external library; its behaviour on one trial is abstracted as either returning
a result or raising an exception. -/

/-- Result of the physics calls inside `Model.run_cp`'s try block. -/
inductive PhysicsOutcome (α : Type) where
  | ok (r : α)
  | exc
deriving DecidableEq

/-- `Model.run_cp` (src/cp_sampler.py 82-101): the try block stores the driver
results in `model_output`; the bare `except` catches every exception and
stores `None` (modelled as `none`), so no exception ever propagates out. -/
def run_cp {α : Type} (p : PhysicsOutcome α) : Option α :=
  match p with
  | .ok r => some r
  | .exc => none

/-- The outcome recorded for one trial. -/
inductive Outcome (α : Type) where
  | timedOut
  | failed
  | success (r : α)
deriving DecidableEq

/-- The outcome classification of the sweep loop (src/cp_sampler.py 253-266):
`if thread.is_alive():` timeout marker; else `if model_output == None:` failed
marker; else the full result. -/
def classify_trial {α : Type} (alive : Bool) (output : Option α) : Outcome α :=
  if alive then .timedOut
  else
    match output with
    | none => .failed
    | some r => .success r

/-- C8: trial outcome classification. A worker still alive at the deadline is
recorded TimedOut; otherwise an internal exception — caught by `run_cp`, which
stores `None` instead of propagating — is recorded Failed, and a returned
result is recorded Success with that result. The three recorded outcomes are
mutually exclusive and exhaustive (the iff triple), so exactly one outcome is
recorded per trial. -/
theorem c8_trial_outcome_classification {α : Type} :
    (∀ p : PhysicsOutcome α, classify_trial true (run_cp p) = Outcome.timedOut) ∧
    classify_trial false (run_cp (PhysicsOutcome.exc : PhysicsOutcome α)) =
      Outcome.failed ∧
    (∀ r : α, classify_trial false (run_cp (PhysicsOutcome.ok r)) =
      Outcome.success r) ∧
    (∀ (alive : Bool) (p : PhysicsOutcome α),
      (classify_trial alive (run_cp p) = Outcome.timedOut ↔ alive = true) ∧
      (classify_trial alive (run_cp p) = Outcome.failed ↔
        alive = false ∧ p = PhysicsOutcome.exc) ∧
      (∀ r, classify_trial alive (run_cp p) = Outcome.success r ↔
        alive = false ∧ p = PhysicsOutcome.ok r)) := by
  refine ⟨fun p => rfl, rfl, fun r => rfl, ?_⟩
  intro alive p
  cases alive <;> cases p <;> simp [classify_trial, run_cp]

/-- Cartesian product of the parameter domains in declaration order:
`itertools.product(*param_list)`, the leftmost domain varying slowest. -/
def product {α : Type} : List (List α) → List (List α)
  | [] => [[]]
  | d :: ds => d.flatMap fun x => (product ds).map fun c => x :: c

/-- Marker encoded in an output file's name. -/
inductive FileKind where
  | timeout
  | failed
  | result
deriving DecidableEq

/-- One file written by the sweep loop: the two command-line sweep-axis
indices, the 1-based combination ordinal, the marker kind, and the parameter
combination it belongs to. -/
structure FileRec where
  i1 : ℕ
  i2 : ℕ
  ord : ℕ
  kind : FileKind
  params : List ℚ
deriving DecidableEq

/-- `s.zfill(w)`: left-pad with zeros to width `w`. -/
def zfill (w : ℕ) (s : String) : String :=
  if s.length < w then String.mk (List.replicate (w - s.length) '0') ++ s else s

/-- The path of an output file, `results/{index_1}_{index_2}_{index_str}` plus
`_timeout.csv`, `_failed.csv` or `.csv` (src/cp_sampler.py 249-251, 261, 265,
283). -/
def pathOf (fr : FileRec) : String :=
  "results/" ++ natStr fr.i1 ++ "_" ++ natStr fr.i2 ++ "_" ++
    zfill 3 (natStr fr.ord) ++
    (match fr.kind with
     | .timeout => "_timeout.csv"
     | .failed => "_failed.csv"
     | .result => ".csv")

/-- The body of one sweep iteration (src/cp_sampler.py 246-283): each of the
three branches writes exactly one file and moves on (`continue` after the
marker writes, fall-through after the result write). -/
def sweepIter (i1 i2 k : ℕ) (combo : List ℚ) {α : Type} (oc : Outcome α) :
    List FileRec :=
  match oc with
  | .timedOut => [⟨i1, i2, k + 1, .timeout, combo⟩]
  | .failed => [⟨i1, i2, k + 1, .failed, combo⟩]
  | .success _ => [⟨i1, i2, k + 1, .result, combo⟩]

/-- The sweep loop `for i in range(len(combinations))`: run one trial per
combination (the trial's outcome is the oracle `oc`, the physics being an
external library) and collect the files written. -/
def sweepFiles {α : Type} (i1 i2 : ℕ) (oc : ℕ → Outcome α)
    (domains : List (List ℚ)) : List FileRec :=
  let combos := product domains
  (List.range combos.length).flatMap fun k =>
    sweepIter i1 i2 k (combos.getD k []) (oc k)

/-- The file kind the sweep writes for each outcome. -/
def kindOf {α : Type} : Outcome α → FileKind
  | .timedOut => .timeout
  | .failed => .failed
  | .success _ => .result

lemma sweepIter_eq {α : Type} (i1 i2 k : ℕ) (c : List ℚ) (oc : Outcome α) :
    sweepIter i1 i2 k c oc = [⟨i1, i2, k + 1, kindOf oc, c⟩] := by
  cases oc <;> rfl

lemma sweepFiles_eq_map {α : Type} (i1 i2 : ℕ) (oc : ℕ → Outcome α)
    (domains : List (List ℚ)) :
    sweepFiles i1 i2 oc domains =
      (List.range (product domains).length).map fun k =>
        ⟨i1, i2, k + 1, kindOf (oc k), (product domains).getD k []⟩ := by
  show ((List.range (product domains).length).flatMap fun k =>
    sweepIter i1 i2 k ((product domains).getD k []) (oc k)) = _
  generalize List.range (product domains).length = ks
  induction ks with
  | nil => rfl
  | cons k ks ih => rw [List.flatMap_cons, List.map_cons, sweepIter_eq, ih]; rfl

lemma product_length {α : Type} : ∀ ds : List (List α),
    (product ds).length = (ds.map List.length).prod
  | [] => rfl
  | d :: ds => by
    simp only [product, List.map_cons, List.prod_cons]
    rw [← product_length ds]
    induction d with
    | nil => simp
    | cons x d ih =>
      rw [List.flatMap_cons, List.length_append, List.length_map, ih,
        List.length_cons, Nat.succ_mul, Nat.add_comm]

lemma map_getD_range {α : Type} (d : α) : ∀ l : List α,
    (List.range l.length).map (fun k => l.getD k d) = l := by
  intro l
  induction l with
  | nil => rfl
  | cons a l ih =>
    rw [List.length_cons, List.range_succ_eq_map, List.map_cons, List.map_map]
    simp only [Function.comp_def, List.getD_cons_zero, List.getD_cons_succ]
    rw [ih]

/-- Outcome oracle mixing all three outcomes, for the concrete C7 instance. -/
def ocMix : ℕ → Outcome ℚ := fun k =>
  if k = 0 then .timedOut else if k = 1 then .failed else .success 7

/-- All-success outcome oracle, for the concrete C7 instance. -/
def ocAll : ℕ → Outcome ℚ := fun k => .success (k : ℚ)

/-- C7: the sweep driver enumerates the full Cartesian product of the domains
in declaration order and writes exactly one file per combination: the number
of combinations is the product of the domain sizes, the file list has one
entry per combination carrying exactly that combination's parameters, the
1-based ordinals are `1..N` and pairwise distinct — so no combination is
skipped or duplicated, whatever each trial's outcome. For domains of sizes
[2, 3], exactly 6 files are produced, with pairwise distinct zero-padded
names, both for a mixed timeout/failed/success run and for an all-success
run. -/
theorem c7_sweep_one_file_per_combination :
    (∀ (α : Type) (i1 i2 : ℕ) (oc : ℕ → Outcome α) (domains : List (List ℚ)),
      (product domains).length = (domains.map List.length).prod ∧
      (sweepFiles i1 i2 oc domains).length = (product domains).length ∧
      (sweepFiles i1 i2 oc domains).map FileRec.ord =
        (List.range (product domains).length).map (fun k => k + 1) ∧
      ((sweepFiles i1 i2 oc domains).map FileRec.ord).Nodup ∧
      (sweepFiles i1 i2 oc domains).map FileRec.params = product domains) ∧
    (sweepFiles 0 1 ocMix [[1, 2], [10, 20, 30]]).map pathOf =
      ["results/0_1_001_timeout.csv", "results/0_1_002_failed.csv",
       "results/0_1_003.csv", "results/0_1_004.csv", "results/0_1_005.csv",
       "results/0_1_006.csv"] ∧
    ((sweepFiles 0 1 ocMix [[1, 2], [10, 20, 30]]).map pathOf).Nodup ∧
    ((sweepFiles 0 1 ocAll [[1, 2], [10, 20, 30]]).map pathOf).Nodup ∧
    (sweepFiles 0 1 ocAll [[1, 2], [10, 20, 30]]).length = 6 := by
  refine ⟨?_, by decide, by decide, by decide, by decide⟩
  intro α i1 i2 oc domains
  have hmap := sweepFiles_eq_map i1 i2 oc domains
  have hord : (sweepFiles i1 i2 oc domains).map FileRec.ord =
      (List.range (product domains).length).map (fun k => k + 1) := by
    rw [hmap, List.map_map]; rfl
  refine ⟨product_length domains, ?_, hord, ?_, ?_⟩
  · rw [hmap, List.length_map, List.length_range]
  · rw [hord]
    exact List.Nodup.map (fun a b h => by omega) (List.nodup_range _)
  · rw [hmap, List.map_map]
    exact map_getD_range [] (product domains)

/-! ### C9: the timeout design as an interleaving model

Each trial `k` of the sweep loop executes `model.define_params(**param_dict)`,
starts worker `k` (`thread.start()`), blocks in `thread.join(timeout=MAX_TIME)`
until the worker finishes or the deadline passes, and then records the
trial's outcome. A timed-out worker is not killed: it stays in flight and may
still perform its write to the shared `model_output` field at any later time
(or never). The run is modelled over an abstract discrete timeline: every
event gets a timestamp, and the shared `params` fields and `model_output`
cell hold, at each instant, the value of the latest write at or before it. -/

/-- The sweep being run: `N` combinations, combination `k`'s parameter set
(abstracted to a number), and what worker `k`'s physics call returns for the
parameter value it read (`none` models a raised exception). -/
structure SweepSpec where
  N : ℕ
  params : ℕ → ℕ
  compute : ℕ → ℕ → Option ℕ

/-- Timestamps of one run's events: `dp k` when the main loop runs
`define_params` for trial `k`; `sp k` when worker `k` starts; `rd k` when
worker `k` reads the shared parameter fields; `wr k` when worker `k` writes
`model_output` (`none` when it never finishes); `rcd k` when the main loop
returns from `join` and records trial `k`'s outcome. -/
structure Sched where
  dp : ℕ → ℕ
  sp : ℕ → ℕ
  rd : ℕ → ℕ
  wr : ℕ → Option ℕ
  rcd : ℕ → ℕ

/-- `a < w` for an optional timestamp `w`, true when `w = none`. -/
abbrev OptLt (a : ℕ) (o : Option ℕ) : Prop := a < o.getD (a + 1)

/-- Admissible schedules: program order inside the main loop
(`define_params ; start ; join/record`, and `record k` before
`define_params (k+1)`) and inside each worker (`start ; read params ; write
output`). The wall-clock deadline is abstracted into the schedule: whether
worker `k`'s write precedes `rcd k` is exactly the `thread.is_alive()`
test. -/
def Wf (S : SweepSpec) (σ : Sched) : Prop :=
  (∀ k, k < S.N → σ.dp k < σ.sp k) ∧
  (∀ k, k < S.N → σ.sp k < σ.rd k) ∧
  (∀ k, k < S.N → σ.rd k < σ.rcd k) ∧
  (∀ k, k < S.N → OptLt (σ.rd k) (σ.wr k)) ∧
  (∀ k, k < S.N → k + 1 < S.N → σ.rcd k < σ.dp (k + 1))

/-- Least `j < N` satisfying `p`, by bounded search. -/
def searchIdx (p : ℕ → Bool) : ℕ → Option ℕ
  | 0 => none
  | n + 1 =>
    match searchIdx p n with
    | some k => some k
    | none => if p n then some n else none

/-- Index of the trial whose `define_params` fires at time `t`, if any. -/
def dpIndexAt (S : SweepSpec) (σ : Sched) (t : ℕ) : Option ℕ :=
  searchIdx (fun k => σ.dp k = t) S.N

/-- Index of the worker whose `model_output` write fires at time `t`, if any. -/
def wrIndexAt (S : SweepSpec) (σ : Sched) (t : ℕ) : Option ℕ :=
  searchIdx (fun k => σ.wr k = some t) S.N

/-- Value of the shared parameter fields just after time `t`; `none` before
the first `define_params` (the attributes do not exist yet). -/
def paramsAt (S : SweepSpec) (σ : Sched) : ℕ → Option ℕ
  | 0 =>
    match dpIndexAt S σ 0 with
    | some k => some (S.params k)
    | none => none
  | t + 1 =>
    match dpIndexAt S σ (t + 1) with
    | some k => some (S.params k)
    | none => paramsAt S σ t

/-- The value worker `k` computes and will write to `model_output`: its
physics call applied to the parameter fields as read at `rd k`. Reading the
fields before any `define_params` raises, and the bare `except` of `run_cp`
turns that into `None`. -/
def wrVal (S : SweepSpec) (σ : Sched) (k : ℕ) : Option ℕ :=
  match paramsAt S σ (σ.rd k) with
  | none => none
  | some p => S.compute k p

/-- Value of the shared `model_output` cell just after time `t`; initially
`None` (set in `Model.__init__`). -/
def outputAt (S : SweepSpec) (σ : Sched) : ℕ → Option ℕ
  | 0 =>
    match wrIndexAt S σ 0 with
    | some k => wrVal S σ k
    | none => none
  | t + 1 =>
    match wrIndexAt S σ (t + 1) with
    | some k => wrVal S σ k
    | none => outputAt S σ t

/-- `not thread.is_alive()` at trial `k`'s join return: worker `k` wrote its
output strictly before `rcd k`. -/
def finishedBefore (σ : Sched) (k : ℕ) : Bool :=
  match σ.wr k with
  | none => false
  | some w => decide (w < σ.rcd k)

/-- The outcome the sweep loop records for trial `k`: the classification of
src/cp_sampler.py 260-266 applied to the shared `model_output` cell as it
stands when the trial is recorded. -/
def recorded (S : SweepSpec) (σ : Sched) (k : ℕ) : Outcome ℕ :=
  classify_trial (!finishedBefore σ k) (outputAt S σ (σ.rcd k))

/-- Worker `j` is in flight at time `t`: started and not yet finished. -/
def inFlight (σ : Sched) (j t : ℕ) : Bool :=
  decide (σ.sp j < t) &&
    match σ.wr j with
    | none => true
    | some w => decide (t < w)

/-- Two-trial sweep for the C9 counterexample: worker 0's physics call
succeeds with result 7 (but its trial times out), worker 1's physics call
raises. -/
def exSweep : SweepSpec where
  N := 2
  params := fun k => k
  compute := fun k _ => if k = 0 then some 7 else none

/-- Schedule for the C9 counterexample: trial 0 times out (`rcd 0 = 4`, its
worker only writes at time 9); trial 1's worker reads, raises and writes
`None` at time 8; the detached worker 0 then writes its late result at time
9, just before the main loop reads `model_output` at `rcd 1 = 10`. -/
def exSched : Sched where
  dp := fun k => if k = 0 then 1 else 5
  sp := fun k => if k = 0 then 2 else 6
  rd := fun k => if k = 0 then 3 else 7
  wr := fun k => if k = 0 then some 9 else some 8
  rcd := fun k => if k = 0 then 4 else 10

/-- C9 counterexample: an admissible run in which trial 0 times out. After the
timeout, `define_params` for trial 1 runs while worker 0 is still in flight
(refuting the claim's no-mutation half), and worker 0's late write lands
between trial 1's own `None` write and the main loop's read, so trial 1 —
whose physics call raised and whose own worker wrote `None` — is recorded as
`Success 7` with the discarded worker's stale result (refuting the claim's
no-influence half). -/
theorem c9_stale_result_counterexample :
    Wf exSweep exSched ∧
      exSweep.compute 1 (exSweep.params 1) = none ∧
      wrVal exSweep exSched 1 = none ∧
      finishedBefore exSched 1 = true ∧
      recorded exSweep exSched 1 = Outcome.success 7 ∧
      inFlight exSched 0 (exSched.dp 1) = true := by
  refine ⟨⟨by decide, by decide, by decide, by decide, by decide⟩,
    by decide, by decide, by decide, by decide, by decide⟩

lemma dp_lt_rcd {S : SweepSpec} {σ : Sched} (hwf : Wf S σ) {k : ℕ} (hk : k < S.N) :
    σ.dp k < σ.rcd k :=
  lt_trans (lt_trans (hwf.1 k hk) (hwf.2.1 k hk)) (hwf.2.2.1 k hk)

/-- Trials run strictly in sequence: trial `j`'s record precedes trial `k`'s
`define_params` for `j < k`. -/
lemma rcd_lt_dp_of_lt {S : SweepSpec} {σ : Sched} (hwf : Wf S σ) :
    ∀ {j k : ℕ}, j < k → k < S.N → σ.rcd j < σ.dp k := by
  intro j k
  induction k with
  | zero => intro h _; exact absurd h (Nat.not_lt_zero j)
  | succ m ih =>
    intro hjk hk
    have hm : m < S.N := lt_trans (Nat.lt_succ_self m) hk
    have hlast : σ.rcd m < σ.dp (m + 1) := hwf.2.2.2.2 m hm hk
    rcases Nat.lt_succ_iff_lt_or_eq.1 hjk with h | h
    · exact lt_trans (lt_trans (ih h hm) (dp_lt_rcd hwf hm)) hlast
    · subst h; exact hlast

lemma finished_spec {σ : Sched} {k : ℕ} (h : finishedBefore σ k = true) :
    ∃ w, σ.wr k = some w ∧ w < σ.rcd k := by
  unfold finishedBefore at h
  cases hw : σ.wr k with
  | none => rw [hw] at h; simp at h
  | some w => rw [hw] at h; exact ⟨w, rfl, of_decide_eq_true h⟩

lemma searchIdx_eq_none {p : ℕ → Bool} :
    ∀ {N : ℕ}, (∀ j, j < N → p j = false) → searchIdx p N = none
  | 0, _ => rfl
  | N + 1, h => by
    have h1 := searchIdx_eq_none (p := p) (fun j hj => h j (Nat.lt_succ_of_lt hj))
    simp [searchIdx, h1, h N (Nat.lt_succ_self N)]

lemma searchIdx_eq_some {p : ℕ → Bool} {k : ℕ} :
    ∀ {N : ℕ}, k < N → p k = true → (∀ j, j < N → p j = true → j = k) →
      searchIdx p N = some k
  | 0, hk, _, _ => absurd hk (Nat.not_lt_zero k)
  | N + 1, hk, hpk, huniq => by
    rcases Nat.lt_succ_iff_lt_or_eq.1 hk with h | h
    · have h1 := searchIdx_eq_some h hpk
        (fun j hj hpj => huniq j (Nat.lt_succ_of_lt hj) hpj)
      simp [searchIdx, h1]
    · subst h
      have h1 : searchIdx p k = none := searchIdx_eq_none
        (fun j hj => by
          cases hpj : p j with
          | false => rfl
          | true => exact absurd (huniq j (Nat.lt_succ_of_lt hj) hpj) (Nat.ne_of_lt hj))
      simp [searchIdx, h1, hpk]

lemma paramsAt_stable (S : SweepSpec) (σ : Sched) :
    ∀ b a, a ≤ b → (∀ u, a < u → u ≤ b → dpIndexAt S σ u = none) →
      paramsAt S σ b = paramsAt S σ a := by
  intro b
  induction b with
  | zero => intro a ha _; cases Nat.le_zero.1 ha; rfl
  | succ m ih =>
    intro a hab hno
    by_cases ham : a = m + 1
    · subst ham; rfl
    · have ham2 : a ≤ m := by omega
      have hnone : dpIndexAt S σ (m + 1) = none := hno (m + 1) (by omega) (le_refl _)
      have ih2 := ih a ham2 (fun u hu1 hu2 => hno u hu1 (Nat.le_succ_of_le hu2))
      show (match dpIndexAt S σ (m + 1) with
        | some k => some (S.params k)
        | none => paramsAt S σ m) = paramsAt S σ a
      rw [hnone, ih2]

lemma outputAt_stable (S : SweepSpec) (σ : Sched) :
    ∀ b a, a ≤ b → (∀ u, a < u → u ≤ b → wrIndexAt S σ u = none) →
      outputAt S σ b = outputAt S σ a := by
  intro b
  induction b with
  | zero => intro a ha _; cases Nat.le_zero.1 ha; rfl
  | succ m ih =>
    intro a hab hno
    by_cases ham : a = m + 1
    · subst ham; rfl
    · have ham2 : a ≤ m := by omega
      have hnone : wrIndexAt S σ (m + 1) = none := hno (m + 1) (by omega) (le_refl _)
      have ih2 := ih a ham2 (fun u hu1 hu2 => hno u hu1 (Nat.le_succ_of_le hu2))
      show (match wrIndexAt S σ (m + 1) with
        | some k => wrVal S σ k
        | none => outputAt S σ m) = outputAt S σ a
      rw [hnone, ih2]

lemma paramsAt_event {S : SweepSpec} {σ : Sched} {t k : ℕ}
    (h : dpIndexAt S σ t = some k) : paramsAt S σ t = some (S.params k) := by
  cases t <;> simp [paramsAt, h]

lemma outputAt_event {S : SweepSpec} {σ : Sched} {t k : ℕ}
    (h : wrIndexAt S σ t = some k) : outputAt S σ t = wrVal S σ k := by
  cases t <;> simp [outputAt, h]

/-- C9 amended: in every admissible run in which every worker finishes before
its trial's deadline (no trial times out), the claimed isolation does hold:
each worker reads its own trial's parameters, each trial's recorded outcome is
the classification of its own worker's physics result, and the parameter
fields are never mutated while a previously started worker is in flight. -/
theorem c9_isolation_without_timeouts (S : SweepSpec) (σ : Sched)
    (hwf : Wf S σ) (hnt : ∀ k, k < S.N → finishedBefore σ k = true) :
    (∀ k, k < S.N → paramsAt S σ (σ.rd k) = some (S.params k)) ∧
    (∀ k, k < S.N →
      recorded S σ k = classify_trial false (S.compute k (S.params k))) ∧
    (∀ k j, k < S.N → j < S.N → j ≠ k → inFlight σ j (σ.dp k) = false) := by
  have hW : ∀ k, k < S.N → ∃ w, σ.wr k = some w ∧ σ.rd k < w ∧ w < σ.rcd k := by
    intro k hk
    obtain ⟨w, hww, hwr⟩ := finished_spec (hnt k hk)
    have h4k := hwf.2.2.2.1 k hk
    rw [hww] at h4k
    exact ⟨w, hww, by simpa using h4k, hwr⟩
  have hparams : ∀ k, k < S.N → paramsAt S σ (σ.rd k) = some (S.params k) := by
    intro k hk
    have hdpuniq : dpIndexAt S σ (σ.dp k) = some k := by
      refine searchIdx_eq_some hk (by simp) ?_
      intro j hj hpj
      have hee : σ.dp j = σ.dp k := of_decide_eq_true hpj
      by_contra hne
      rcases Nat.lt_or_ge j k with hlt | hge
      · have ha := rcd_lt_dp_of_lt hwf hlt hk
        have hb := dp_lt_rcd hwf hj
        omega
      · have hkj : k < j := by omega
        have ha := rcd_lt_dp_of_lt hwf hkj hj
        have hb := dp_lt_rcd hwf hk
        omega
    have hstab : paramsAt S σ (σ.rd k) = paramsAt S σ (σ.dp k) := by
      refine paramsAt_stable S σ (σ.rd k) (σ.dp k)
        (le_of_lt (lt_trans (hwf.1 k hk) (hwf.2.1 k hk))) ?_
      intro u hu1 hu2
      refine searchIdx_eq_none ?_
      intro j hj
      by_cases he : σ.dp j = u
      · exfalso
        rcases Nat.lt_trichotomy j k with hlt | heq | hgt
        · have ha := rcd_lt_dp_of_lt hwf hlt hk
          have hb := dp_lt_rcd hwf hj
          omega
        · subst heq; omega
        · have ha := rcd_lt_dp_of_lt hwf hgt hj
          have hb := hwf.2.2.1 k hk
          omega
      · exact decide_eq_false he
    rw [hstab]
    exact paramsAt_event hdpuniq
  refine ⟨hparams, ?_, ?_⟩
  · intro k hk
    obtain ⟨w, hww, hrdw, hwrc⟩ := hW k hk
    have hwruniq : wrIndexAt S σ w = some k := by
      refine searchIdx_eq_some hk (by simp [hww]) ?_
      intro j hj hpj
      have hej : σ.wr j = some w := of_decide_eq_true hpj
      by_contra hne
      rcases Nat.lt_or_ge j k with hlt | hge
      · obtain ⟨wj, hwj, hrdj, hwcj⟩ := hW j hj
        rw [hwj] at hej
        injection hej with hejv
        have ha := rcd_lt_dp_of_lt hwf hlt hk
        have hb := hwf.1 k hk
        have hc := hwf.2.1 k hk
        omega
      · have hkj : k < j := by omega
        obtain ⟨wj, hwj, hrdj, hwcj⟩ := hW j hj
        rw [hwj] at hej
        injection hej with hejv
        have ha := rcd_lt_dp_of_lt hwf hkj hj
        have hb := hwf.1 j hj
        have hc := hwf.2.1 j hj
        omega
    have hstab : outputAt S σ (σ.rcd k) = outputAt S σ w := by
      refine outputAt_stable S σ (σ.rcd k) w (le_of_lt hwrc) ?_
      intro u hu1 hu2
      refine searchIdx_eq_none ?_
      intro j hj
      by_cases hej : σ.wr j = some u
      · exfalso
        rcases Nat.lt_trichotomy j k with hlt | heq | hgt
        · obtain ⟨wj, hwj, hrdj, hwcj⟩ := hW j hj
          rw [hwj] at hej
          injection hej with hejv
          have ha := rcd_lt_dp_of_lt hwf hlt hk
          have hb := hwf.1 k hk
          have hc := hwf.2.1 k hk
          omega
        · subst heq
          rw [hww] at hej
          injection hej with hejv
          omega
        · obtain ⟨wj, hwj, hrdj, hwcj⟩ := hW j hj
          rw [hwj] at hej
          injection hej with hejv
          have ha := rcd_lt_dp_of_lt hwf hgt hj
          have hb := hwf.1 j hj
          have hc := hwf.2.1 j hj
          omega
      · exact decide_eq_false hej
    unfold recorded
    rw [hnt k hk, Bool.not_true, hstab, outputAt_event hwruniq]
    unfold wrVal
    rw [hparams k hk]
  · intro k j hk hj hne
    obtain ⟨wj, hwj, hrdj, hwcj⟩ := hW j hj
    unfold inFlight
    rw [hwj]
    show (decide (σ.sp j < σ.dp k) && decide (σ.dp k < wj)) = false
    rcases Nat.lt_or_ge j k with hlt | hge
    · have ha := rcd_lt_dp_of_lt hwf hlt hk
      have hd : decide (σ.dp k < wj) = false := decide_eq_false (by omega)
      rw [hd, Bool.and_false]
    · have hkj : k < j := by omega
      have ha := rcd_lt_dp_of_lt hwf hkj hj
      have hb := dp_lt_rcd hwf hk
      have hc := hwf.1 j hj
      have hd : decide (σ.sp j < σ.dp k) = false := decide_eq_false (by omega)
      rw [hd, Bool.false_and]

/-- No-timeout schedule for the C9 witness: both workers finish before their
deadlines. -/
def exSchedGood : Sched where
  dp := fun k => if k = 0 then 1 else 6
  sp := fun k => if k = 0 then 2 else 7
  rd := fun k => if k = 0 then 3 else 8
  wr := fun k => if k = 0 then some 4 else some 9
  rcd := fun k => if k = 0 then 5 else 10

/-- C9 witness: on a concrete admissible two-trial run without timeouts, the
amended theorem yields that trial 0 records its own worker's success, trial 1
records its own worker's failure, and worker 0 is not in flight when trial 1's
`define_params` runs. -/
theorem c9_isolation_without_timeouts_witness :
    Wf exSweep exSchedGood ∧
      (∀ k, k < exSweep.N → finishedBefore exSchedGood k = true) ∧
      recorded exSweep exSchedGood 0 = Outcome.success 7 ∧
      recorded exSweep exSchedGood 1 = Outcome.failed ∧
      inFlight exSchedGood 0 (exSchedGood.dp 1) = false := by
  have h := c9_isolation_without_timeouts exSweep exSchedGood
    ⟨by decide, by decide, by decide, by decide, by decide⟩ (by decide)
  refine ⟨⟨by decide, by decide, by decide, by decide, by decide⟩, by decide,
    ?_, ?_, ?_⟩
  · rw [h.2.1 0 (by decide)]; decide
  · rw [h.2.1 1 (by decide)]; decide
  · exact h.2.2 1 0 (by decide) (by decide) (by decide)

end CpSampler
